import Mathlib

/-!
Verification of the occurrence-generation library `financial-recurrence-rs`
(src/lib.rs, src/occurrences.rs) against its natural-language specification.

The library computes occurrence dates of calendar recurrence rules on top of
chrono's `NaiveDate`.  We embed the relevant chrono operations over a concrete
calendar model: a date is a (year, month, day) triple in the proleptic
Gregorian calendar, restricted to chrono's representable range
(year -262144 = 262145 BCE through year 262143 CE), ordered lexicographically,
exactly as chrono orders `NaiveDate`.
-/

namespace Recurrence

/-- Smallest representable year: chrono's `NaiveDate::MIN` is -262144-01-01. -/
def minYear : Int := -262144

/-- Largest representable year: chrono's `NaiveDate::MAX` is 262143-12-31. -/
def maxYear : Int := 262143

/-- Proleptic Gregorian leap-year rule, as used by chrono's `NaiveDate`. -/
def isLeapYear (y : Int) : Bool :=
  (decide (y % 4 = 0) && !decide (y % 100 = 0)) || decide (y % 400 = 0)

/-- Number of days in month `m` (1-indexed) of year `y`; 0 for an invalid
month number. -/
def daysInMonth (y : Int) (m : Nat) : Nat :=
  if m = 2 then (if isLeapYear y then 29 else 28)
  else if m = 4 ∨ m = 6 ∨ m = 9 ∨ m = 11 then 30
  else if 1 ≤ m ∧ m ≤ 12 then 31
  else 0

/-- Model of chrono's `NaiveDate`: a calendar date as a raw
(year, month, day) triple.  Only dates satisfying `Date.Valid` correspond to
actual `NaiveDate` values. -/
structure Date where
  year : Int
  month : Nat
  day : Nat
deriving DecidableEq, Repr

/-- A triple denotes an actual `NaiveDate`: month and day are calendar-valid
and the year is within chrono's representable range. -/
def Date.Valid (d : Date) : Prop :=
  1 ≤ d.month ∧ d.month ≤ 12 ∧ 1 ≤ d.day ∧ d.day ≤ daysInMonth d.year d.month ∧
    minYear ≤ d.year ∧ d.year ≤ maxYear

instance (d : Date) : Decidable d.Valid := by
  unfold Date.Valid; infer_instance

/-- Strict calendar order on dates (chrono's `Ord` on `NaiveDate`):
lexicographic on (year, month, day). -/
def Date.lt (a b : Date) : Prop :=
  a.year < b.year ∨
    (a.year = b.year ∧ (a.month < b.month ∨ (a.month = b.month ∧ a.day < b.day)))

instance (a b : Date) : Decidable (Date.lt a b) := by
  unfold Date.lt; infer_instance

/-- Non-strict calendar order on dates: lexicographic on (year, month, day). -/
def Date.le (a b : Date) : Prop :=
  a.year < b.year ∨
    (a.year = b.year ∧ (a.month < b.month ∨ (a.month = b.month ∧ a.day ≤ b.day)))

instance (a b : Date) : Decidable (Date.le a b) := by
  unfold Date.le; infer_instance

/-- Chrono's `NaiveDate::MIN` ("the beginning of time"). -/
def dateMin : Date := ⟨minYear, 1, 1⟩

/-- Days since 1970-01-01 in the proleptic Gregorian calendar (the standard
"days from civil" computation).  Used only to compute weekdays. -/
def rataDie (dt : Date) : Int :=
  let y : Int := if dt.month ≤ 2 then dt.year - 1 else dt.year
  let era : Int := Int.fdiv y 400
  let yoe : Int := y - era * 400
  let mp : Nat := (dt.month + 9) % 12
  let doy : Nat := (153 * mp + 2) / 5 + (dt.day - 1)
  let doe : Int := yoe * 365 + Int.fdiv yoe 4 - Int.fdiv yoe 100 + (doy : Int)
  era * 146097 + doe - 719468

/-- Day of the week, as chrono's `Weekday`. -/
inductive Wd where
  | mon | tue | wed | thu | fri | sat | sun
deriving DecidableEq, Repr

/-- Weekday of a date (chrono `NaiveDate::weekday`), via the day count
modulo 7; 1970-01-01 was a Thursday. -/
def Date.weekday (d : Date) : Wd :=
  match ((rataDie d + 3) % 7).toNat with
  | 0 => .mon
  | 1 => .tue
  | 2 => .wed
  | 3 => .thu
  | 4 => .fri
  | 5 => .sat
  | _ => .sun

/-- Model of the `DayFilter` bitflags struct: a 7-bit set, xMTWTFSS. -/
structure DayFilter where
  bits : Nat
deriving DecidableEq, Repr

namespace DayFilter

/-- Monday bit. -/
def MONDAY : DayFilter := ⟨0b1000000⟩
/-- Tuesday bit. -/
def TUESDAY : DayFilter := ⟨0b0100000⟩
/-- Wednesday bit. -/
def WEDNESDAY : DayFilter := ⟨0b0010000⟩
/-- Thursday bit. -/
def THURSDAY : DayFilter := ⟨0b0001000⟩
/-- Friday bit. -/
def FRIDAY : DayFilter := ⟨0b0000100⟩
/-- Saturday bit. -/
def SATURDAY : DayFilter := ⟨0b0000010⟩
/-- Sunday bit. -/
def SUNDAY : DayFilter := ⟨0b0000001⟩

/-- Every day of the week. -/
def EVERYDAY : DayFilter :=
  ⟨MONDAY.bits ||| TUESDAY.bits ||| WEDNESDAY.bits ||| THURSDAY.bits |||
    FRIDAY.bits ||| SATURDAY.bits ||| SUNDAY.bits⟩

/-- Any day of the week (same as `EVERYDAY`). -/
def ANYDAY : DayFilter := EVERYDAY

/-- Only weekdays. -/
def WEEKDAYS : DayFilter :=
  ⟨MONDAY.bits ||| TUESDAY.bits ||| WEDNESDAY.bits ||| THURSDAY.bits |||
    FRIDAY.bits⟩

/-- Only weekends. -/
def WEEKENDS : DayFilter := ⟨SATURDAY.bits ||| SUNDAY.bits⟩

/-- Bitflags `contains`: all bits of `other` are set in `f`. -/
def contains (f other : DayFilter) : Bool :=
  (f.bits &&& other.bits) == other.bits

end DayFilter

/-- Model of `is_weekday_in_filter` from `occurrences.rs`. -/
def is_weekday_in_filter (weekday : Wd) (filter : DayFilter) : Bool :=
  match weekday with
  | .mon => filter.contains .MONDAY
  | .tue => filter.contains .TUESDAY
  | .wed => filter.contains .WEDNESDAY
  | .thu => filter.contains .THURSDAY
  | .fri => filter.contains .FRIDAY
  | .sat => filter.contains .SATURDAY
  | .sun => filter.contains .SUNDAY

/-- Model of `NaiveDate::checked_add_days(Days::new(1))`: the calendar
successor, or `none` past `NaiveDate::MAX`. -/
def succD (d : Date) : Option Date :=
  if d.day < daysInMonth d.year d.month then some ⟨d.year, d.month, d.day + 1⟩
  else if d.month < 12 then some ⟨d.year, d.month + 1, 1⟩
  else if d.year < maxYear then some ⟨d.year + 1, 1, 1⟩
  else none

/-- Model of `NaiveDate::checked_sub_days(Days::new(1))`: the calendar
predecessor, or `none` before `NaiveDate::MIN`. -/
def predD (d : Date) : Option Date :=
  if 1 < d.day then some ⟨d.year, d.month, d.day - 1⟩
  else if 1 < d.month then some ⟨d.year, d.month - 1, daysInMonth d.year (d.month - 1)⟩
  else if minYear < d.year then some ⟨d.year - 1, 12, 31⟩
  else none

/-- Model of `NaiveDate::checked_add_months(Months::new(1))`: move to the
next calendar month (carrying the year), clamping the day-of-month to the
target month's length; `none` when the result would be out of range. -/
def addOneMonth (d : Date) : Option Date :=
  if d.month < 12 then
    some ⟨d.year, d.month + 1, min d.day (daysInMonth d.year (d.month + 1))⟩
  else if d.year < maxYear then some ⟨d.year + 1, 1, min d.day 31⟩
  else none

/-- Model of `NaiveDate::with_day`: replace the day-of-month, or `none` when
the day does not exist in that month. -/
def withDay (d : Date) (day : Nat) : Option Date :=
  if 1 ≤ day ∧ day ≤ daysInMonth d.year d.month then some ⟨d.year, d.month, day⟩
  else none

/-- Model of `NaiveDate::from_ymd_opt`: `none` when the triple is not a valid
in-range calendar date. -/
def fromYmd (y : Int) (m d : Nat) : Option Date :=
  if (Date.mk y m d).Valid then some ⟨y, m, d⟩ else none

/-- Fuel bound for the forward day-stepping loops.  It strictly decreases
along `succD` (`fuelMax_succD`) and is positive for every valid date, so a
scan running on this much fuel is never cut short: it stops only by finding a
matching weekday or by `succD` running past `NaiveDate::MAX`, exactly like
the source's unbounded `while` loop over `checked_add_days`. -/
def fuelMax (d : Date) : Nat :=
  (maxYear - d.year).toNat * 372 + (12 - d.month) * 31 + (32 - d.day)

/-- Fuel bound for the backward day-stepping loop; the mirror of `fuelMax`
for `predD` (see `fuelMin_predD`). -/
def fuelMin (d : Date) : Nat :=
  (d.year - minYear).toNat * 372 + d.month * 31 + d.day

/-- Model of the forward scanning loop
`while !is_weekday_in_filter(d.weekday(), f) { d = d.checked_add_days(1)? }`:
starting at `d`, find the first date (including `d` itself) whose weekday is
in `filter`; `none` when `checked_add_days` overflows (the fuel, always
instantiated with `fuelMax`, never runs out first — see `scanAdd_none`). -/
def scanAdd (filter : DayFilter) : Nat → Date → Option Date
  | 0, _ => none
  | fuel + 1, d =>
    if is_weekday_in_filter d.weekday filter then some d
    else
      match succD d with
      | none => none
      | some d2 => scanAdd filter fuel d2

/-- Model of the backward scanning loop over `checked_sub_days`; the mirror
of `scanAdd`. -/
def scanSub (filter : DayFilter) : Nat → Date → Option Date
  | 0, _ => none
  | fuel + 1, d =>
    if is_weekday_in_filter d.weekday filter then some d
    else
      match predD d with
      | none => none
      | some d2 => scanSub filter fuel d2

/-- Model of the `Frequency` enum from `lib.rs`.  The `date`/`month` payloads
are `u8` in the source; they are modelled as `Nat`, which is faithful for all
comparisons the code performs. -/
inductive Frequency where
  | weekly (days : DayFilter)
  | monthly (date : Nat)
  | yearly (date : Nat) (month : Nat)
deriving DecidableEq, Repr

/-- Model of the `ResolveDirection` enum from `lib.rs`. -/
inductive ResolveDirection where
  | into_future
  | into_past
deriving DecidableEq, Repr

/-- Model of the `RecurrenceRule` struct from `lib.rs`. -/
structure RecurrenceRule where
  not_before : Date
  not_after : Option Date
  max_occurrences : Option Nat
  frequency : Frequency
  day_filter : DayFilter
  resolve : ResolveDirection
deriving DecidableEq, Repr

/-- Model of the `Occurrence` struct from `occurrences.rs` (its single field
is called `at` in the source, a reserved word here). -/
structure Occurrence where
  at_date : Date
deriving DecidableEq, Repr

/-- Model of the `Iter` struct from `occurrences.rs`.  The source holds
`rule` by reference and never mutates it; we hold it by value. -/
structure Iter where
  currently_at : Date
  index : Nat
  rule : RecurrenceRule
deriving DecidableEq, Repr

/-- Model of `Option::is_some_and`. -/
def someAnd (p : α → Bool) : Option α → Bool
  | none => false
  | some a => p a

/-- Outcome of one `Iter::next` call: an occurrence together with the mutated
iterator (`Some(occ)` after `self.index += 1; self.currently_at = d`), the
end-of-sequence signal `None`, or a panic (`expect` failure). -/
inductive StepResult where
  | yield (occ : Occurrence) (s : Iter)
  | done
  | panic
deriving DecidableEq, Repr

/-- Outcome of the "Establish next date" block of `Iter::next`: the tentative
next date, `None` from checked date arithmetic (the `?` operator), or a panic
from one of the two `expect` calls. -/
inductive AdvanceResult where
  | ok (d : Date)
  | overflow
  | invalidRule
deriving DecidableEq, Repr

/-- The "Establish next date" block of `Iter::next`, per `Frequency` variant.
Comparisons write chrono's 0-indexed `day0() + 1` as `day` and
`month0() + 1` as `month`; the source's `match cmp` on months
(Greater ⇒ next year, Equal ⇒ `day0 + 1 >= date`, Less ⇒ this year) is
written as the equivalent disjunction. -/
def freqAdvance (f : Frequency) (cursor : Date) : AdvanceResult :=
  match f with
  | .weekly days =>
    match succD cursor with
    | none => .overflow
    | some d1 =>
      match scanAdd days (fuelMax d1) d1 with
      | none => .overflow
      | some t => .ok t
  | .monthly date =>
    let need_next_month := date ≤ cursor.day
    match (if need_next_month then addOneMonth cursor else some cursor) with
    | none => .overflow
    | some d1 =>
      match withDay d1 date with
      | none => .invalidRule
      | some t => .ok t
  | .yearly date month =>
    let need_next_year : Prop :=
      month < cursor.month ∨ (cursor.month = month ∧ date ≤ cursor.day)
    let y := if need_next_year then cursor.year + 1 else cursor.year
    match fromYmd y month date with
    | none => .invalidRule
    | some t => .ok t

/-- The day-filter resolution block of `Iter::next`: walk one day at a time
in the configured direction until the weekday is in `filter` (a no-op when
the start date already is). -/
def resolveFilter (filter : DayFilter) (dir : ResolveDirection) (d : Date) :
    Option Date :=
  match dir with
  | .into_future => scanAdd filter (fuelMax d) d
  | .into_past => scanSub filter (fuelMin d) d

/-- Model of `Iter::next` from `occurrences.rs`: termination pre-checks
against `not_after` and `max_occurrences`, frequency advancement, day-filter
resolution, then emit and mutate the cursor and count. -/
def Iter.next (it : Iter) : StepResult :=
  if someAnd (fun na => decide (Date.lt na it.currently_at)) it.rule.not_after then
    .done
  else if someAnd (fun m => decide (m ≤ it.index)) it.rule.max_occurrences then
    .done
  else
    match freqAdvance it.rule.frequency it.currently_at with
    | .overflow => .done
    | .invalidRule => .panic
    | .ok d1 =>
      match resolveFilter it.rule.day_filter it.rule.resolve d1 with
      | none => .done
      | some d2 => .yield ⟨d2⟩ ⟨d2, it.index + 1, it.rule⟩

/-- Dates emitted by the first `n` pulls from the iterator (stopping at the
first `None` or panic). -/
def runD : Nat → Iter → List Date
  | 0, _ => []
  | n + 1, it =>
    match it.next with
    | .yield occ s => occ.at_date :: runD n s
    | .done => []
    | .panic => []

/-- The iterator state after one pull (unchanged when the pull does not
yield: the source returns `None` before any mutation of `self`). -/
def pullS (it : Iter) : Iter :=
  match it.next with
  | .yield _ s => s
  | .done => it
  | .panic => it

/-- The iterator state after `n` pulls. -/
def pulls : Nat → Iter → Iter
  | 0, it => it
  | n + 1, it => pulls n (pullS it)

/-- Model of `RecurrenceRule::iter_after`: an iterator seeded (exclusively)
at `start_point`. -/
def RecurrenceRule.iter_after (r : RecurrenceRule) (start_point : Date) : Iter :=
  ⟨start_point, 0, r⟩

/-- Model of `RecurrenceRule::iter`:
`iter_after(not_before.checked_sub_days(1).unwrap())`.  The `unwrap` panic
(when `not_before` is `NaiveDate::MIN`) is modelled as `none`. -/
def RecurrenceRule.iter (r : RecurrenceRule) : Option Iter :=
  (predD r.not_before).map (fun d => r.iter_after d)

/-- Model of `RecurrenceRule::set_not_before_unchecked`. -/
def RecurrenceRule.set_not_before_unchecked (r : RecurrenceRule) (nb : Date) :
    RecurrenceRule :=
  { r with not_before := nb }

/-- Model of `RecurrenceRule::set_not_before`: rejects (returning `false`,
state unchanged) when the new date is after `not_after`. -/
def RecurrenceRule.set_not_before (r : RecurrenceRule) (nb : Date) :
    Bool × RecurrenceRule :=
  if someAnd (fun na => decide (Date.lt na nb)) r.not_after then (false, r)
  else (true, r.set_not_before_unchecked nb)

/-- Model of `RecurrenceRule::set_not_after_unchecked`. -/
def RecurrenceRule.set_not_after_unchecked (r : RecurrenceRule)
    (na : Option Date) : RecurrenceRule :=
  { r with not_after := na }

/-- Model of `RecurrenceRule::set_not_after`: rejects (returning `false`,
state unchanged) when the new date is before `not_before`. -/
def RecurrenceRule.set_not_after (r : RecurrenceRule) (na : Option Date) :
    Bool × RecurrenceRule :=
  if someAnd (fun d => decide (Date.lt d r.not_before)) na then (false, r)
  else (true, r.set_not_after_unchecked na)

/-- Model of `RecurrenceRule::new`. -/
def RecurrenceRule.new (frequency : Frequency) (not_before : Date) :
    RecurrenceRule :=
  ⟨not_before, none, none, frequency, .EVERYDAY, .into_future⟩

/-! ## Basic calendar lemmas -/

theorem daysInMonth_le_31 (y : Int) (m : Nat) : daysInMonth y m ≤ 31 := by
  simp only [daysInMonth]
  split_ifs <;> omega

theorem daysInMonth_pos (y : Int) (m : Nat) (h1 : 1 ≤ m) (h2 : m ≤ 12) :
    1 ≤ daysInMonth y m := by
  simp only [daysInMonth]
  split_ifs <;> omega

theorem Date.le_refl (a : Date) : Date.le a a := by
  unfold Date.le; omega

theorem Date.le_of_lt {a b : Date} (h : Date.lt a b) : Date.le a b := by
  simp only [Date.lt, Date.le] at *; omega

theorem Date.le_trans {a b c : Date} (h1 : Date.le a b) (h2 : Date.le b c) :
    Date.le a c := by
  simp only [Date.le] at *; omega

theorem Date.lt_of_lt_of_le {a b c : Date} (h1 : Date.lt a b)
    (h2 : Date.le b c) : Date.lt a c := by
  simp only [Date.lt, Date.le] at *; omega

theorem Date.le_iff {a b : Date} : Date.le a b ↔ Date.lt a b ∨ a = b := by
  obtain ⟨ya, ma, da⟩ := a; obtain ⟨yb, mb, db⟩ := b
  simp only [Date.le, Date.lt, Date.mk.injEq]
  omega

theorem Date.not_lt {a b : Date} : ¬Date.lt a b ↔ Date.le b a := by
  simp only [Date.lt, Date.le]; omega

/-! ## Lemmas about single-day and single-month steps -/

theorem succD_lt {d e : Date} (h : succD d = some e) : Date.lt d e := by
  obtain ⟨y, m, dd⟩ := d
  simp only [succD] at h
  split_ifs at h with h1 h2 h3 <;> cases h <;> (unfold Date.lt; dsimp only) <;>
    omega

theorem succD_valid {d e : Date} (hv : d.Valid) (h : succD d = some e) :
    e.Valid := by
  obtain ⟨y, m, dd⟩ := d
  simp only [Date.Valid] at hv
  obtain ⟨hm1, hm2, hd1, hd2, hy1, hy2⟩ := hv
  simp only [succD] at h
  split_ifs at h with h1 h2 h3 <;> cases h <;> simp only [Date.Valid]
  · exact ⟨hm1, hm2, by omega, by omega, hy1, hy2⟩
  · have := daysInMonth_pos y (m + 1) (by omega) (by omega)
    exact ⟨by omega, by omega, by omega, by omega, hy1, hy2⟩
  · have := daysInMonth_pos (y + 1) 1 (by omega) (by omega)
    exact ⟨by omega, by omega, by omega, by omega, by omega, by omega⟩

/-- The step `succD` is the immediate successor for the calendar order: any strictly
larger valid date is at least the successor. -/
theorem succD_min {a b : Date} (hav : a.Valid) (hbv : b.Valid)
    (hlt : Date.lt a b) : ∃ e, succD a = some e ∧ Date.le e b := by
  obtain ⟨ya, ma, da⟩ := a; obtain ⟨yb, mb, db⟩ := b
  simp only [Date.Valid] at hav hbv
  obtain ⟨ham1, ham2, had1, had2, hay1, hay2⟩ := hav
  obtain ⟨hbm1, hbm2, hbd1, hbd2, hby1, hby2⟩ := hbv
  simp only [Date.lt] at hlt
  simp only [succD]
  by_cases h1 : da < daysInMonth ya ma
  · rw [if_pos h1]
    exact ⟨_, rfl, by simp only [Date.le]; omega⟩
  · rw [if_neg h1]
    by_cases h2 : ma < 12
    · rw [if_pos h2]
      refine ⟨_, rfl, ?_⟩
      simp only [Date.le]
      rcases hlt with h | ⟨hy, h | ⟨hm, h⟩⟩
      · omega
      · omega
      · exfalso
        subst hy; subst hm
        omega
    · rw [if_neg h2]
      have h3 : ya < maxYear := by
        rcases hlt with h | ⟨hy, h | ⟨hm, h⟩⟩
        · omega
        · omega
        · exfalso; subst hy; subst hm; omega
      rw [if_pos h3]
      refine ⟨_, rfl, ?_⟩
      simp only [Date.le]
      rcases hlt with h | ⟨hy, h | ⟨hm, h⟩⟩
      · omega
      · omega
      · exfalso; subst hy; subst hm; omega

theorem fuelMax_succD {d e : Date} (hv : d.Valid) (h : succD d = some e) :
    fuelMax e < fuelMax d := by
  obtain ⟨y, m, dd⟩ := d
  simp only [Date.Valid] at hv
  obtain ⟨hm1, hm2, hd1, hd2, hy1, hy2⟩ := hv
  have hdim := daysInMonth_le_31 y m
  simp only [succD] at h
  split_ifs at h with h1 h2 h3 <;> cases h <;> simp only [fuelMax] <;> omega

theorem predD_valid {d e : Date} (hv : d.Valid) (h : predD d = some e) :
    e.Valid := by
  obtain ⟨y, m, dd⟩ := d
  simp only [Date.Valid] at hv
  obtain ⟨hm1, hm2, hd1, hd2, hy1, hy2⟩ := hv
  simp only [predD] at h
  split_ifs at h with h1 h2 h3 <;> cases h <;> simp only [Date.Valid]
  · exact ⟨hm1, hm2, by omega, by omega, hy1, hy2⟩
  · have := daysInMonth_pos y (m - 1) (by omega) (by omega)
    exact ⟨by omega, by omega, by omega, by omega, hy1, hy2⟩
  · have hd12 : daysInMonth (y - 1) 12 = 31 := by simp [daysInMonth]
    exact ⟨by omega, by omega, by omega, by omega, by omega, by omega⟩

theorem fuelMin_predD {d e : Date} (hv : d.Valid) (h : predD d = some e) :
    fuelMin e < fuelMin d := by
  obtain ⟨y, m, dd⟩ := d
  simp only [Date.Valid] at hv
  obtain ⟨hm1, hm2, hd1, hd2, hy1, hy2⟩ := hv
  have hdim := daysInMonth_le_31 y (m - 1)
  simp only [predD] at h
  split_ifs at h with h1 h2 h3 <;> cases h <;> simp only [fuelMin] <;> omega

/-- For a valid date, `checked_sub_days(1)` fails exactly at
`NaiveDate::MIN`. -/
theorem predD_eq_none_iff {d : Date} (hv : d.Valid) :
    predD d = none ↔ d = dateMin := by
  obtain ⟨y, m, dd⟩ := d
  simp only [Date.Valid] at hv
  obtain ⟨hm1, hm2, hd1, hd2, hy1, hy2⟩ := hv
  simp only [predD, dateMin]
  split_ifs with h1 h2 h3 <;>
    simp only [Date.mk.injEq, reduceCtorEq, false_iff, true_iff] <;> omega

/-! ## Lemmas about the day-stepping scan loops -/

theorem scanAdd_some {f : DayFilter} :
    ∀ {fuel : Nat} {d t : Date}, scanAdd f fuel d = some t →
      Date.le d t ∧ is_weekday_in_filter t.weekday f = true := by
  intro fuel
  induction fuel with
  | zero => intro d t h; simp [scanAdd] at h
  | succ n ih =>
    intro d t h
    simp only [scanAdd] at h
    split_ifs at h with h1
    · cases h; exact ⟨Date.le_refl _, h1⟩
    · cases hs : succD d with
      | none => simp [hs] at h
      | some d2 =>
        simp only [hs] at h
        obtain ⟨h2, h3⟩ := ih h
        exact ⟨Date.le_trans (Date.le_of_lt (succD_lt hs)) h2, h3⟩

theorem scanAdd_valid {f : DayFilter} :
    ∀ {fuel : Nat} {d t : Date}, d.Valid → scanAdd f fuel d = some t →
      t.Valid := by
  intro fuel
  induction fuel with
  | zero => intro d t _ h; simp [scanAdd] at h
  | succ n ih =>
    intro d t hv h
    simp only [scanAdd] at h
    split_ifs at h with h1
    · cases h; exact hv
    · cases hs : succD d with
      | none => simp [hs] at h
      | some d2 =>
        simp only [hs] at h
        exact ih (succD_valid hv hs) h

/-- The forward scan finds the first matching date: its result is at most
any valid date `e ≥ d` whose weekday is in the filter. -/
theorem scanAdd_min {f : DayFilter} :
    ∀ {fuel : Nat} {d t : Date}, d.Valid → scanAdd f fuel d = some t →
      ∀ e, e.Valid → Date.le d e → is_weekday_in_filter e.weekday f = true →
        Date.le t e := by
  intro fuel
  induction fuel with
  | zero => intro d t _ h; simp [scanAdd] at h
  | succ n ih =>
    intro d t hv h e hev hde hef
    simp only [scanAdd] at h
    split_ifs at h with h1
    · cases h; exact hde
    · cases hs : succD d with
      | none => simp [hs] at h
      | some d2 =>
        simp only [hs] at h
        have hne : e ≠ d := by
          intro hh; rw [hh] at hef; exact h1 hef
        have hlt : Date.lt d e := by
          rcases Date.le_iff.mp hde with hl | he
          · exact hl
          · exact absurd he.symm hne
        obtain ⟨e2, hs2, hle2⟩ := succD_min hv hev hlt
        rw [hs] at hs2
        cases hs2
        exact ih (succD_valid hv hs) h e hev hle2 hef

/-- A forward scan run on `fuelMax` fuel returns `none` only because
`checked_add_days` overflowed: a valid date with no successor (that is,
`NaiveDate::MAX`) was reached without finding a matching weekday.  This is
exactly when the source's unbounded loop stops with `None`, so the fuel
encoding is faithful. -/
theorem scanAdd_none {f : DayFilter} :
    ∀ {fuel : Nat} {d : Date}, d.Valid → fuelMax d ≤ fuel →
      scanAdd f fuel d = none →
      ∃ e, e.Valid ∧ succD e = none ∧
        is_weekday_in_filter e.weekday f = false := by
  intro fuel
  induction fuel with
  | zero =>
    intro d hv hle _
    exfalso
    obtain ⟨y, m, dd⟩ := d
    unfold Date.Valid at hv; dsimp only at hv
    obtain ⟨hm1, hm2, hd1, hd2, hy1, hy2⟩ := hv
    have := daysInMonth_le_31 y m
    unfold fuelMax at hle; dsimp only at hle
    omega
  | succ n ih =>
    intro d hv hle h
    simp only [scanAdd] at h
    split_ifs at h with h1
    cases hs : succD d with
    | none =>
      exact ⟨d, hv, hs, by simpa using h1⟩
    | some d2 =>
      simp only [hs] at h
      have hfuel := fuelMax_succD hv hs
      exact ih (succD_valid hv hs) (by omega) h

/-- Mirror of `scanAdd_none` for the backward scan: on `fuelMin` fuel it
returns `none` only because `checked_sub_days` ran past `NaiveDate::MIN`. -/
theorem scanSub_none {f : DayFilter} :
    ∀ {fuel : Nat} {d : Date}, d.Valid → fuelMin d ≤ fuel →
      scanSub f fuel d = none →
      ∃ e, e.Valid ∧ predD e = none ∧
        is_weekday_in_filter e.weekday f = false := by
  intro fuel
  induction fuel with
  | zero =>
    intro d hv hle _
    exfalso
    obtain ⟨y, m, dd⟩ := d
    unfold Date.Valid at hv; dsimp only at hv
    obtain ⟨hm1, hm2, hd1, hd2, hy1, hy2⟩ := hv
    unfold fuelMin at hle; dsimp only at hle
    omega
  | succ n ih =>
    intro d hv hle h
    simp only [scanSub] at h
    split_ifs at h with h1
    cases hs : predD d with
    | none =>
      exact ⟨d, hv, hs, by simpa using h1⟩
    | some d2 =>
      simp only [hs] at h
      have hfuel := fuelMin_predD hv hs
      exact ih (predD_valid hv hs) (by omega) h

/-! ## Lemmas about frequency advancement -/

theorem addOneMonth_spec {d e : Date} (hv : d.Valid)
    (h : addOneMonth d = some e) :
    e.Valid ∧ (d.year < e.year ∨ (d.year = e.year ∧ d.month < e.month)) := by
  obtain ⟨y, m, dd⟩ := d
  unfold Date.Valid at hv; dsimp only at hv
  obtain ⟨hm1, hm2, hd1, hd2, hy1, hy2⟩ := hv
  unfold addOneMonth at h; dsimp only at h
  split_ifs at h with h1 h2
  · cases h
    have hp := daysInMonth_pos y (m + 1) (by omega) (by omega)
    have hl := daysInMonth_le_31 y (m + 1)
    constructor
    · unfold Date.Valid; dsimp only
      exact ⟨by omega, by omega, by omega, by omega, hy1, hy2⟩
    · dsimp only; omega
  · cases h
    have hp : daysInMonth (y + 1) 1 = 31 := by simp [daysInMonth]
    constructor
    · unfold Date.Valid; dsimp only
      exact ⟨by omega, by omega, by omega, by omega, by omega, by omega⟩
    · dsimp only; omega

theorem withDay_spec {d e : Date} {day : Nat} (h : withDay d day = some e) :
    e.year = d.year ∧ e.month = d.month ∧ e.day = day ∧
      1 ≤ day ∧ day ≤ daysInMonth d.year d.month := by
  unfold withDay at h
  split_ifs at h with h1
  cases h; exact ⟨rfl, rfl, rfl, h1.1, h1.2⟩

theorem fromYmd_spec {y : Int} {m dd : Nat} {e : Date}
    (h : fromYmd y m dd = some e) : e = ⟨y, m, dd⟩ ∧ e.Valid := by
  unfold fromYmd at h
  split_ifs at h with h1
  cases h; exact ⟨rfl, h1⟩

/-- Frequency advancement always moves strictly forward from the cursor and
produces a valid date, for every frequency variant. -/
theorem freqAdvance_ok {f : Frequency} {c t : Date} (hv : c.Valid)
    (h : freqAdvance f c = .ok t) : Date.lt c t ∧ t.Valid := by
  match f with
  | .weekly days =>
    unfold freqAdvance at h
    cases hs : succD c with
    | none => simp [hs] at h
    | some d1 =>
      simp only [hs] at h
      cases hsc : scanAdd days (fuelMax d1) d1 with
      | none => simp [hsc] at h
      | some t2 =>
        simp only [hsc] at h
        cases h
        obtain ⟨hle, _⟩ := scanAdd_some hsc
        exact ⟨Date.lt_of_lt_of_le (succD_lt hs) hle,
          scanAdd_valid (succD_valid hv hs) hsc⟩
  | .monthly date =>
    unfold freqAdvance at h
    dsimp only at h
    split_ifs at h with hneed
    · cases ham : addOneMonth c with
      | none => simp [ham] at h
      | some d1 =>
        simp only [ham] at h
        cases hwd : withDay d1 date with
        | none => simp [hwd] at h
        | some t2 =>
          simp only [hwd] at h
          cases h
          obtain ⟨hd1v, hmo⟩ := addOneMonth_spec hv ham
          obtain ⟨he1, he2, he3, he4, he5⟩ := withDay_spec hwd
          unfold Date.Valid at hd1v
          constructor
          · unfold Date.lt
            omega
          · unfold Date.Valid
            rw [he1, he2, he3]
            exact ⟨hd1v.1, hd1v.2.1, he4, he5, hd1v.2.2.2.2.1,
              hd1v.2.2.2.2.2⟩
    · cases hwd : withDay c date with
      | none => simp [hwd] at h
      | some t2 =>
        simp only [hwd] at h
        cases h
        obtain ⟨he1, he2, he3, he4, he5⟩ := withDay_spec hwd
        unfold Date.Valid at hv
        constructor
        · unfold Date.lt
          omega
        · unfold Date.Valid
          rw [he1, he2, he3]
          exact ⟨hv.1, hv.2.1, he4, he5, hv.2.2.2.2.1, hv.2.2.2.2.2⟩
  | .yearly date month =>
    unfold freqAdvance at h
    dsimp only at h
    by_cases hny : month < c.month ∨ (c.month = month ∧ date ≤ c.day)
    · rw [if_pos hny] at h
      cases hfy : fromYmd (c.year + 1) month date with
      | none => simp [hfy] at h
      | some t2 =>
        simp only [hfy] at h
        cases h
        obtain ⟨ht, htv⟩ := fromYmd_spec hfy
        subst ht
        refine ⟨?_, htv⟩
        unfold Date.lt; dsimp only
        omega
    · rw [if_neg hny] at h
      cases hfy : fromYmd c.year month date with
      | none => simp [hfy] at h
      | some t2 =>
        simp only [hfy] at h
        cases h
        obtain ⟨ht, htv⟩ := fromYmd_spec hfy
        subst ht
        refine ⟨?_, htv⟩
        unfold Date.lt; dsimp only
        omega

/-! ## Lemmas about a single `Iter::next` call -/

/-- Inversion for a yielding `next` call: the new state is the emitted date
with the count bumped and the rule unchanged, the occurrence-cap pre-check
passed, and the emitted date came from frequency advancement followed by
day-filter resolution. -/
theorem next_yield {it : Iter} {occ : Occurrence} {s : Iter}
    (h : it.next = .yield occ s) :
    s = ⟨occ.at_date, it.index + 1, it.rule⟩ ∧
    (∀ N, it.rule.max_occurrences = some N → it.index < N) ∧
    ∃ d1, freqAdvance it.rule.frequency it.currently_at = .ok d1 ∧
      resolveFilter it.rule.day_filter it.rule.resolve d1 = some occ.at_date := by
  unfold Iter.next at h
  split_ifs at h with h1 h2
  cases hf : freqAdvance it.rule.frequency it.currently_at with
  | overflow => simp [hf] at h
  | invalidRule => simp [hf] at h
  | ok d1 =>
    simp only [hf] at h
    cases hr : resolveFilter it.rule.day_filter it.rule.resolve d1 with
    | none => simp [hr] at h
    | some d2 =>
      simp only [hr] at h
      cases h
      refine ⟨rfl, ?_, d1, rfl, hr⟩
      intro N hN
      rw [hN] at h2
      simp only [someAnd, decide_eq_true_eq] at h2
      omega

/-- When the occurrence cap has been reached, `next` returns `None`. -/
theorem next_done_of_max {it : Iter} {N : Nat}
    (hN : it.rule.max_occurrences = some N) (hi : N ≤ it.index) :
    it.next = .done := by
  unfold Iter.next
  split_ifs with h1 h2
  · rfl
  · rfl
  · exfalso
    rw [hN] at h2
    simp only [someAnd, decide_eq_true_eq] at h2
    omega

/-- With `resolve = IntoFuture`, every emitted occurrence is strictly after
the cursor that produced it, and is a valid date. -/
theorem next_yield_mono {it : Iter} {occ : Occurrence} {s : Iter}
    (hv : it.currently_at.Valid) (hdir : it.rule.resolve = .into_future)
    (h : it.next = .yield occ s) :
    Date.lt it.currently_at occ.at_date ∧ occ.at_date.Valid := by
  obtain ⟨hs, hmax, d1, hf, hr⟩ := next_yield h
  obtain ⟨hlt, hdv⟩ := freqAdvance_ok hv hf
  rw [hdir] at hr
  simp only [resolveFilter] at hr
  obtain ⟨hle, _⟩ := scanAdd_some hr
  exact ⟨Date.lt_of_lt_of_le hlt hle, scanAdd_valid hdv hr⟩

/-! ## Concrete rules used by the claims -/

/-- Scenario B of the specification: `Monthly{date: 1}`,
`not_before = 2025-01-01`, `day_filter = WEEKDAYS`, `resolve = IntoFuture`. -/
def ruleScenarioB : RecurrenceRule :=
  ⟨⟨2025, 1, 1⟩, none, none, .monthly 1, .WEEKDAYS, .into_future⟩

/-- A backward-resolving rule: `Monthly{date: 2}` with `WEEKDAYS` filter and
`resolve = IntoPast`. -/
def ruleIntoPast : RecurrenceRule :=
  ⟨⟨2025, 1, 1⟩, none, none, .monthly 2, .WEEKDAYS, .into_past⟩

/-- A monthly rule with an upper validity bound `not_after = 2025-01-15`. -/
def ruleNotAfter : RecurrenceRule :=
  ⟨⟨2025, 1, 1⟩, some ⟨2025, 1, 15⟩, none, .monthly 1, .EVERYDAY, .into_future⟩

/-- A yearly rule (April 1) used near the end of the representable range. -/
def ruleYearlyEnd : RecurrenceRule :=
  ⟨⟨2025, 1, 1⟩, none, none, .yearly 1 4, .EVERYDAY, .into_future⟩

/-- Scenario C of the specification: `Weekly{days = WEEKENDS}` with the
`ANYDAY` outer filter. -/
def ruleWeekend : RecurrenceRule :=
  ⟨⟨2025, 1, 1⟩, none, none, .weekly .WEEKENDS, .ANYDAY, .into_future⟩

/-- A monthly rule capped at two occurrences. -/
def ruleMaxTwo : RecurrenceRule :=
  ⟨⟨2025, 1, 1⟩, none, some 2, .monthly 1, .EVERYDAY, .into_future⟩

/-- A monthly rule capped at zero occurrences: every pull returns `None`. -/
def ruleMaxZero : RecurrenceRule :=
  ⟨⟨2025, 1, 1⟩, none, some 0, .monthly 1, .EVERYDAY, .into_future⟩

/-- A monthly rule with `not_before = 2025-01-01`, iterated from well before
its start boundary. -/
def ruleEarly : RecurrenceRule :=
  ⟨⟨2025, 1, 1⟩, none, none, .monthly 1, .EVERYDAY, .into_future⟩

/-- Same as `ruleEarly` but with a different `not_before` and all other fields equal. -/
def ruleEarlyShifted : RecurrenceRule :=
  ⟨⟨2030, 6, 15⟩, none, none, .monthly 1, .EVERYDAY, .into_future⟩

/-! ## Claim C1 -/

/-- C1 (counterexample): the claim asserts strict monotonic increase for
both resolve directions, but with `resolve = IntoPast` the day-filter
resolution walks backwards: from cursor 2025-02-01 (a Saturday), the rule
`Monthly{date: 2}` with `WEEKDAYS` filter emits 2025-01-31, which is
strictly BEFORE the seed cursor. -/
theorem c1_counterexample :
    (ruleIntoPast.iter_after ⟨2025, 2, 1⟩).next =
      .yield ⟨⟨2025, 1, 31⟩⟩ ⟨⟨2025, 1, 31⟩, 1, ruleIntoPast⟩ ∧
    ruleIntoPast.resolve = .into_past ∧
    Date.lt ⟨2025, 1, 31⟩ ⟨2025, 2, 1⟩ := by decide

/-- C1 (amended): restricted to `resolve = IntoFuture`, the sequence of
dates produced by successive `next` calls is strictly increasing, the first
being strictly greater than the seed cursor. -/
theorem c1_amended (it : Iter) (n : Nat) (hv : it.currently_at.Valid)
    (hdir : it.rule.resolve = .into_future) :
    List.Chain' Date.lt (it.currently_at :: runD n it) := by
  induction n generalizing it with
  | zero => simp [runD]
  | succ n ih =>
    rw [runD]
    cases hn : it.next with
    | done => simp
    | panic => simp
    | yield occ s =>
      obtain ⟨hs, hmax, d1, hf, hr⟩ := next_yield hn
      obtain ⟨hlt, hval⟩ := next_yield_mono hv hdir hn
      subst hs
      rw [List.chain'_cons]
      exact ⟨hlt, ih ⟨occ.at_date, it.index + 1, it.rule⟩ hval hdir⟩

/-- C1 (witness): the amended theorem applied to scenario B from one day
before `not_before`, over the first two occurrences. -/
theorem c1_amended_witness :
    List.Chain' Date.lt
      ((ruleScenarioB.iter_after ⟨2024, 12, 31⟩).currently_at ::
        runD 2 (ruleScenarioB.iter_after ⟨2024, 12, 31⟩)) :=
  c1_amended (ruleScenarioB.iter_after ⟨2024, 12, 31⟩) 2 (by decide) (by decide)

/-! ## Claim C2 -/

/-- C2 (code bug): the `not_after` pre-check compares only the cursor, not
the freshly computed date, so one occurrence beyond `not_after` is emitted:
with `not_after = 2025-01-15`, the second pull emits 2025-02-01. -/
theorem c2_not_after_exceeded :
    ruleNotAfter.not_after = some ⟨2025, 1, 15⟩ ∧
    runD 2 (ruleNotAfter.iter_after ⟨2024, 12, 31⟩) =
      [⟨2025, 1, 1⟩, ⟨2025, 2, 1⟩] ∧
    Date.lt ⟨2025, 1, 15⟩ ⟨2025, 2, 1⟩ := by decide

/-! ## Claim C4 -/

/-- C4: scenario B (monthly + weekday resolution), iterated from one day
before `not_before`: the first four occurrences are 2025-01-01, 2025-02-03,
2025-03-03, 2025-04-01 (Feb 1 and Mar 1 2025 are Saturdays and resolve
forward to the following Monday). -/
theorem c4_scenario_b :
    runD 4 (ruleScenarioB.iter_after ⟨2024, 12, 31⟩) =
      [⟨2025, 1, 1⟩, ⟨2025, 2, 3⟩, ⟨2025, 3, 3⟩, ⟨2025, 4, 1⟩] := by decide

/-! ## Claim C6 -/

/-- C6: with `max_occurrences = some N`, at most `N - index` further
occurrences are ever produced (so at most `N` in total from a fresh
iterator), and once the count has reached `N` every pull returns `None`. -/
theorem c6_max_occurrences (it : Iter) (N n : Nat)
    (hN : it.rule.max_occurrences = some N) :
    (runD n it).length ≤ N - it.index ∧ (N ≤ it.index → it.next = .done) := by
  constructor
  · induction n generalizing it with
    | zero => simp [runD]
    | succ n ih =>
      rw [runD]
      cases hn : it.next with
      | done => simp
      | panic => simp
      | yield occ s =>
        obtain ⟨hs, hmax, _, _, _⟩ := next_yield hn
        have hidx := hmax N hN
        subst hs
        have hrec := ih ⟨occ.at_date, it.index + 1, it.rule⟩ hN
        dsimp only at hrec
        simp only [List.length_cons]
        omega
  · intro hi
    exact next_done_of_max hN hi

/-- C6 (witness): the capped rule `ruleMaxTwo` yields at most two dates in
five pulls from a fresh iterator. -/
theorem c6_witness :
    (runD 5 (ruleMaxTwo.iter_after ⟨2024, 12, 31⟩)).length ≤ 2 :=
  (c6_max_occurrences (ruleMaxTwo.iter_after ⟨2024, 12, 31⟩) 2 5 (by decide)).1

/-! ## Claim C8 -/

/-- C8 (code bug): for a `Yearly` rule whose day and month are perfectly
valid (April 1 exists in every year), advancing past the maximum
representable year makes `from_ymd_opt` fail and the `expect` call panic,
although the claim (and `next`'s own documentation) say date-range overflow
ends the sequence with `None` and only an invalid day/month panics. -/
theorem c8_yearly_overflow_panics :
    (ruleYearlyEnd.iter_after ⟨262143, 6, 1⟩).next = .panic ∧
    Date.Valid ⟨262143, 4, 1⟩ := by decide

/-! ## Claim C9 -/

/-- C9: `next` returning `None` leaves the iterator untouched (the source
returns before any mutation of `self`), so every subsequent pull also
returns `None`: the generator never resumes after signalling the end. -/
theorem c9_done_is_permanent (it : Iter) (h : it.next = .done) :
    ∀ n, (pulls n it).next = .done := by
  have hfix : pullS it = it := by
    unfold pullS
    rw [h]
  intro n
  induction n with
  | zero => exact h
  | succ n ih =>
    show (pulls n (pullS it)).next = .done
    rw [hfix]
    exact ih

/-- C9 (witness): a zero-capped rule returns `None` immediately and forever
after. -/
theorem c9_witness : (pulls 3 (ruleMaxZero.iter_after ⟨2024, 12, 31⟩)).next =
    .done :=
  c9_done_is_permanent (ruleMaxZero.iter_after ⟨2024, 12, 31⟩) (by decide) 3

/-! ## Claim C7 -/

/-- C7: for a `Weekly{days}` frequency with a non-empty day set, the
tentative date computed by frequency advancement is the smallest valid date
strictly after the cursor whose weekday belongs to `days`; in particular at
least one day is always added, even when the cursor's own weekday is already
in `days`. -/
theorem c7_weekly_advance_minimal (days : DayFilter) (cursor t : Date)
    (hv : cursor.Valid) (_hne : ∃ w : Wd, is_weekday_in_filter w days = true)
    (h : freqAdvance (.weekly days) cursor = .ok t) :
    Date.lt cursor t ∧ is_weekday_in_filter t.weekday days = true ∧
      ∀ e, e.Valid → Date.lt cursor e →
        is_weekday_in_filter e.weekday days = true → Date.le t e := by
  unfold freqAdvance at h
  cases hs : succD cursor with
  | none => simp [hs] at h
  | some d1 =>
    simp only [hs] at h
    cases hsc : scanAdd days (fuelMax d1) d1 with
    | none => simp [hsc] at h
    | some t2 =>
      simp only [hsc] at h
      cases h
      obtain ⟨hle, hin⟩ := scanAdd_some hsc
      refine ⟨Date.lt_of_lt_of_le (succD_lt hs) hle, hin, ?_⟩
      intro e hev hlt hef
      obtain ⟨e2, hs2, hle2⟩ := succD_min hv hev hlt
      rw [hs] at hs2
      cases hs2
      exact scanAdd_min (succD_valid hv hs) hsc e hev hle2 hef

/-- C7 (witness): from cursor 2025-01-01 (a Wednesday), the weekend-days
weekly advancement produces 2025-01-04, strictly after the cursor. -/
theorem c7_witness : Date.lt ⟨2025, 1, 1⟩ ⟨2025, 1, 4⟩ :=
  (c7_weekly_advance_minimal .WEEKENDS ⟨2025, 1, 1⟩ ⟨2025, 1, 4⟩ (by decide)
    ⟨.sat, by decide⟩ (by decide)).1

/-! ## Claim C3 -/

/-- The setter `set_not_before` accepts whenever the new date does not exceed
`not_after` (in particular whenever `not_after` is absent). -/
theorem set_not_before_accept {r : RecurrenceRule} {d : Date}
    (h : ∀ na, r.not_after = some na → Date.le d na) :
    r.set_not_before d = (true, { r with not_before := d }) := by
  have hcond : ¬(someAnd (fun na => decide (Date.lt na d)) r.not_after = true) := by
    cases hna : r.not_after with
    | none => simp [someAnd]
    | some na0 =>
      simp only [someAnd, decide_eq_true_eq]
      exact Date.not_lt.mpr (h na0 hna)
  unfold RecurrenceRule.set_not_before RecurrenceRule.set_not_before_unchecked
  rw [if_neg hcond]

/-- The setter `set_not_before` rejects, leaving the rule unchanged, whenever the new
date is after `not_after`. -/
theorem set_not_before_reject {r : RecurrenceRule} {d na : Date}
    (hna : r.not_after = some na) (hlt : Date.lt na d) :
    r.set_not_before d = (false, r) := by
  have hcond : someAnd (fun x => decide (Date.lt x d)) r.not_after = true := by
    rw [hna]
    simp [someAnd, hlt]
  unfold RecurrenceRule.set_not_before
  rw [if_pos hcond]

/-- The setter `set_not_after (some d)` accepts whenever `not_before ≤ d`. -/
theorem set_not_after_accept {r : RecurrenceRule} {d : Date}
    (h : Date.le r.not_before d) :
    r.set_not_after (some d) = (true, { r with not_after := some d }) := by
  have hcond : ¬(someAnd (fun x => decide (Date.lt x r.not_before)) (some d) = true) := by
    simp only [someAnd, decide_eq_true_eq]
    exact Date.not_lt.mpr h
  unfold RecurrenceRule.set_not_after RecurrenceRule.set_not_after_unchecked
  rw [if_neg hcond]

/-- The setter `set_not_after (some d)` rejects, leaving the rule unchanged, whenever
`d` is before `not_before`. -/
theorem set_not_after_reject {r : RecurrenceRule} {d : Date}
    (hlt : Date.lt d r.not_before) :
    r.set_not_after (some d) = (false, r) := by
  have hcond : someAnd (fun x => decide (Date.lt x r.not_before)) (some d) = true := by
    simp [someAnd, hlt]
  unfold RecurrenceRule.set_not_after
  rw [if_pos hcond]

/-- C3: starting from a consistent rule, `set_not_before d` succeeds exactly
when `not_after` is absent or `d ≤ not_after`, `set_not_after (some d)`
succeeds exactly when `not_before ≤ d`, a rejected call changes nothing, a
successful call changes exactly the requested bound, and either way the
bounds stay consistent (`not_before ≤ not_after` whenever the latter is
set). -/
theorem c3_setters (r : RecurrenceRule) (d : Date)
    (hc : ∀ na, r.not_after = some na → Date.le r.not_before na) :
    ((r.set_not_before d).1 = true ↔
      (r.not_after = none ∨ ∃ na, r.not_after = some na ∧ Date.le d na)) ∧
    ((r.set_not_before d).1 = true →
      (r.set_not_before d).2 = { r with not_before := d }) ∧
    ((r.set_not_before d).1 = false → (r.set_not_before d).2 = r) ∧
    ((r.set_not_after (some d)).1 = true ↔ Date.le r.not_before d) ∧
    ((r.set_not_after (some d)).1 = true →
      (r.set_not_after (some d)).2 = { r with not_after := some d }) ∧
    ((r.set_not_after (some d)).1 = false → (r.set_not_after (some d)).2 = r) ∧
    (∀ na, (r.set_not_before d).2.not_after = some na →
      Date.le (r.set_not_before d).2.not_before na) ∧
    (∀ na, (r.set_not_after (some d)).2.not_after = some na →
      Date.le (r.set_not_after (some d)).2.not_before na) := by
  refine ⟨?_, ?_, ?_, ?_, ?_, ?_, ?_, ?_⟩
  · constructor
    · intro hb
      cases hna : r.not_after with
      | none => exact Or.inl rfl
      | some na0 =>
        refine Or.inr ⟨na0, rfl, ?_⟩
        by_cases hlt : Date.lt na0 d
        · rw [set_not_before_reject hna hlt] at hb
          simp at hb
        · exact Date.not_lt.mp hlt
    · rintro (hnone | ⟨na0, hna, hle⟩)
      · rw [set_not_before_accept (fun na h => by rw [hnone] at h; cases h)]
      · rw [set_not_before_accept
          (fun na h => by rw [hna] at h; cases h; exact hle)]
  · intro hb
    cases hna : r.not_after with
    | none =>
      rw [set_not_before_accept (fun na h => by rw [hna] at h; cases h)]
      simp [hna]
    | some na0 =>
      by_cases hlt : Date.lt na0 d
      · rw [set_not_before_reject hna hlt] at hb
        simp at hb
      · rw [set_not_before_accept
          (fun na h => by rw [hna] at h; cases h; exact Date.not_lt.mp hlt)]
        simp [hna]
  · intro hb
    cases hna : r.not_after with
    | none =>
      rw [set_not_before_accept (fun na h => by rw [hna] at h; cases h)] at hb
      simp at hb
    | some na0 =>
      by_cases hlt : Date.lt na0 d
      · rw [set_not_before_reject hna hlt]
      · rw [set_not_before_accept
          (fun na h => by rw [hna] at h; cases h; exact Date.not_lt.mp hlt)] at hb
        simp at hb
  · constructor
    · intro hb
      by_cases hlt : Date.lt d r.not_before
      · rw [set_not_after_reject hlt] at hb
        simp at hb
      · exact Date.not_lt.mp hlt
    · intro hle
      rw [set_not_after_accept hle]
  · intro hb
    by_cases hlt : Date.lt d r.not_before
    · rw [set_not_after_reject hlt] at hb
      simp at hb
    · rw [set_not_after_accept (Date.not_lt.mp hlt)]
  · intro hb
    by_cases hlt : Date.lt d r.not_before
    · rw [set_not_after_reject hlt]
    · rw [set_not_after_accept (Date.not_lt.mp hlt)] at hb
      simp at hb
  · intro na2 hn2
    cases hna : r.not_after with
    | none =>
      rw [set_not_before_accept (fun na h => by rw [hna] at h; cases h)] at hn2
      dsimp only at hn2
      rw [hna] at hn2
      cases hn2
    | some na0 =>
      by_cases hlt : Date.lt na0 d
      · rw [set_not_before_reject hna hlt] at hn2 ⊢
        exact hc na2 hn2
      · rw [set_not_before_accept
          (fun na h => by rw [hna] at h; cases h; exact Date.not_lt.mp hlt)]
          at hn2 ⊢
        dsimp only at hn2 ⊢
        rw [hna] at hn2
        cases hn2
        exact Date.not_lt.mp hlt
  · intro na2 hn2
    by_cases hlt : Date.lt d r.not_before
    · rw [set_not_after_reject hlt] at hn2 ⊢
      exact hc na2 hn2
    · rw [set_not_after_accept (Date.not_lt.mp hlt)] at hn2 ⊢
      dsimp only at hn2 ⊢
      cases hn2
      exact Date.not_lt.mp hlt

/-- C3 (witness): with `not_after = 2025-01-15`, moving `not_before` to
2025-02-01 is rejected and leaves the rule unchanged (scenario D shape). -/
theorem c3_witness :
    (ruleNotAfter.set_not_before ⟨2025, 2, 1⟩).1 = false ∧
    (ruleNotAfter.set_not_before ⟨2025, 2, 1⟩).2 = ruleNotAfter := by
  have h := c3_setters ruleNotAfter ⟨2025, 2, 1⟩
    (fun na hh => by
      cases hh
      exact (by decide : Date.le ⟨2025, 1, 1⟩ ⟨2025, 1, 15⟩))
  exact ⟨by decide, h.2.2.1 (by decide)⟩

/-! ## Claim C5 -/

/-- C5: `iter()` is `iter_after(not_before - 1 day)`: it fails fatally
exactly when `not_before` is the minimum representable date, and otherwise
returns the iterator seeded at the predecessor of `not_before`, which
therefore produces exactly the same sequence of occurrences. -/
theorem c5_iter_from_start (r : RecurrenceRule) (hv : r.not_before.Valid) :
    (r.iter = none ↔ r.not_before = dateMin) ∧
    (∀ d it, predD r.not_before = some d → r.iter = some it →
      it = r.iter_after d ∧ ∀ n, runD n it = runD n (r.iter_after d)) := by
  constructor
  · constructor
    · intro h
      apply (predD_eq_none_iff hv).mp
      cases hp : predD r.not_before with
      | none => rfl
      | some d =>
        unfold RecurrenceRule.iter at h
        rw [hp] at h
        simp at h
    · intro h
      unfold RecurrenceRule.iter
      rw [(predD_eq_none_iff hv).mpr h]
      rfl
  · intro d it hp hit
    unfold RecurrenceRule.iter at hit
    rw [hp] at hit
    simp only [Option.map] at hit
    cases hit
    exact ⟨rfl, fun n => rfl⟩

/-- C5 (witness): for scenario B's rule, `iter()` does not panic (its
`not_before`, 2025-01-01, is not the minimum representable date). -/
theorem c5_witness : ruleScenarioB.iter = none ↔ ruleScenarioB.not_before =
    dateMin :=
  (c5_iter_from_start ruleScenarioB (by decide)).1

/-! ## Claim C10 -/

/-- One `next` call never reads `not_before`: two iterators agreeing on
cursor, count, and every rule field except `not_before` step identically,
up to carrying their own rule in the successor state. -/
theorem next_agree {r1 r2 : RecurrenceRule}
    (h1 : r1.not_after = r2.not_after)
    (h2 : r1.max_occurrences = r2.max_occurrences)
    (h3 : r1.frequency = r2.frequency)
    (h4 : r1.day_filter = r2.day_filter)
    (h5 : r1.resolve = r2.resolve) (d : Date) (i : Nat) :
    Iter.next ⟨d, i, r2⟩ =
      match Iter.next ⟨d, i, r1⟩ with
      | .yield occ s => .yield occ ⟨s.currently_at, s.index, r2⟩
      | .done => .done
      | .panic => .panic := by
  unfold Iter.next
  dsimp only
  rw [h1, h2, h3, h4, h5]
  split_ifs
  · rfl
  · rfl
  · cases hf : freqAdvance r2.frequency d with
    | overflow => rfl
    | invalidRule => rfl
    | ok d1 =>
      dsimp only
      cases hr : resolveFilter r2.day_filter r2.resolve d1 with
      | none => rfl
      | some d2 => rfl

/-- The whole emitted sequence never depends on `not_before`. -/
theorem runD_agree {r1 r2 : RecurrenceRule}
    (h1 : r1.not_after = r2.not_after)
    (h2 : r1.max_occurrences = r2.max_occurrences)
    (h3 : r1.frequency = r2.frequency)
    (h4 : r1.day_filter = r2.day_filter)
    (h5 : r1.resolve = r2.resolve) :
    ∀ n (d : Date) (i : Nat), runD n ⟨d, i, r1⟩ = runD n ⟨d, i, r2⟩ := by
  intro n
  induction n with
  | zero => intro d i; rfl
  | succ n ih =>
    intro d i
    rw [runD, runD, next_agree h1 h2 h3 h4 h5 d i]
    cases hn : Iter.next ⟨d, i, r1⟩ with
    | done => rfl
    | panic => rfl
    | yield occ s =>
      obtain ⟨hs, -, -⟩ := next_yield hn
      subst hs
      dsimp only
      exact congrArg _ (ih _ _)

/-- C10: `iter_after` ignores `not_before` entirely — rules differing only
in `not_before` produce identical sequences from any start — and
consequently a date strictly before `not_before` can be emitted when the
start precedes it: from 2024-10-15, `ruleEarly` (whose `not_before` is
2025-01-01) first emits 2024-11-01. -/
theorem c10_not_before_ignored (r1 r2 : RecurrenceRule)
    (h1 : r1.not_after = r2.not_after)
    (h2 : r1.max_occurrences = r2.max_occurrences)
    (h3 : r1.frequency = r2.frequency)
    (h4 : r1.day_filter = r2.day_filter)
    (h5 : r1.resolve = r2.resolve) :
    (∀ n start, runD n (r1.iter_after start) = runD n (r2.iter_after start)) ∧
    (runD 1 (ruleEarly.iter_after ⟨2024, 10, 15⟩) = [⟨2024, 11, 1⟩] ∧
      Date.lt ⟨2024, 11, 1⟩ ruleEarly.not_before) := by
  constructor
  · intro n start
    exact runD_agree h1 h2 h3 h4 h5 n start 0
  · exact ⟨by decide, by decide⟩

/-- C10 (witness): two concrete rules differing only in `not_before`
(2025-01-01 versus 2030-06-15) emit the same dates from 2024-10-15. -/
theorem c10_witness :
    runD 3 (ruleEarly.iter_after ⟨2024, 10, 15⟩) =
      runD 3 (ruleEarlyShifted.iter_after ⟨2024, 10, 15⟩) :=
  (c10_not_before_ignored ruleEarly ruleEarlyShifted rfl rfl rfl rfl rfl).1 3
    ⟨2024, 10, 15⟩

end Recurrence
